import Mathlib

/-!
Verification of the manifest decoder of the mc-launchermeta repository
(src/src/version/mod.rs and src/src/version/library.rs).

The decoders are shallowly embedded: the raw input is a JSON value tree,
and each serde Deserialize implementation becomes a Lean function from
Json to Except DeErr alpha, translated branch by branch from the Rust
source. Derived Serialize implementations become functions to Json.
Struct deserialization follows the semantics of serde derive: keys are
consumed in document order, known fields are decoded eagerly, a repeated
known field raises a duplicate-field error, required fields missing at
the end raise a missing-field error in declaration order, fields of
Option type default to none when absent, and unknown keys raise an
unknown-field error exactly when the struct carries deny_unknown_fields.
-/

/-- A parsed JSON document. Objects are kept as the ordered list of
key-value pairs the deserializer streams over (duplicates possible);
numbers are modelled as integers, which covers every numeric field of
this manifest model (all are unsigned integer sizes and versions). -/
inductive Json where
  | str : String → Json
  | num : Int → Json
  | bool : Bool → Json
  | null : Json
  | arr : List Json → Json
  | obj : List (String × Json) → Json

/-- The shape name serde reports in invalid-type errors. -/
def Json.typeName : Json → String
  | .str _ => "string"
  | .num _ => "number"
  | .bool _ => "boolean"
  | .null => "null"
  | .arr _ => "sequence"
  | .obj _ => "map"

def Json.isStr : Json → Bool
  | .str _ => true
  | _ => false

def Json.isArr : Json → Bool
  | .arr _ => true
  | _ => false

/-- Decode errors, mirroring the serde error constructors the source
invokes (invalid_type, unknown_field, duplicate_field, missing_field)
plus the invalid-enum-value case for enum fields. -/
inductive DeErr where
  | invalidType : String → DeErr
  | unknownField : String → DeErr
  | duplicateField : String → DeErr
  | missingField : String → DeErr
  | invalidEnumValue : String → DeErr
deriving DecidableEq, Repr

/-- String deserialization: accepts exactly a JSON string. -/
def decodeString : Json → Except DeErr String
  | .str s => .ok s
  | j => .error (.invalidType j.typeName)

/-- Bool deserialization: accepts exactly a JSON boolean. -/
def decodeBool : Json → Except DeErr Bool
  | .bool b => .ok b
  | j => .error (.invalidType j.typeName)

/-- u64 deserialization: a non-negative integer below 2 ^ 64. -/
def decodeU64 : Json → Except DeErr Nat
  | .num n => if 0 ≤ n ∧ n < 2 ^ 64 then .ok n.toNat else .error (.invalidType "number")
  | j => .error (.invalidType j.typeName)

/-- u8 deserialization: a non-negative integer below 2 ^ 8. -/
def decodeU8 : Json → Except DeErr Nat
  | .num n => if 0 ≤ n ∧ n < 2 ^ 8 then .ok n.toNat else .error (.invalidType "number")
  | j => .error (.invalidType j.typeName)

/-- Option deserialization: JSON null becomes none, anything else is
passed to the inner deserializer. -/
def decodeOption (f : Json → Except DeErr α) : Json → Except DeErr (Option α)
  | .null => .ok none
  | j =>
      match f j with
      | .error e => .error e
      | .ok a => .ok (some a)

/-- Element-by-element sequence deserialization, as the visit_seq loops
of the source do: decode each element in order, abort on the first
error. -/
def decodeElems (f : Json → Except DeErr α) : List Json → Except DeErr (List α)
  | [] => .ok []
  | j :: rest =>
      match f j with
      | .error e => .error e
      | .ok a =>
          match decodeElems f rest with
          | .error e => .error e
          | .ok as => .ok (a :: as)

/-- Vec deserialization: accepts exactly a JSON array. -/
def decodeList (f : Json → Except DeErr α) : Json → Except DeErr (List α)
  | .arr l => decodeElems f l
  | j => .error (.invalidType j.typeName)

/-- Entry-by-entry decoding of a string-keyed map object. -/
def decodeEntries (f : Json → Except DeErr α) : List (String × Json) → Except DeErr (List (String × α))
  | [] => .ok []
  | (k, v) :: rest =>
      match f v with
      | .error e => .error e
      | .ok a =>
          match decodeEntries f rest with
          | .error e => .error e
          | .ok as => .ok ((k, a) :: as)

/-- BTreeMap with string keys: accepts exactly a JSON object. The map
is modelled as its entry list in document order; no claim under
verification depends on the key ordering of the resulting map. -/
def decodeStrMap (f : Json → Except DeErr α) : Json → Except DeErr (List (String × α))
  | .obj kvs => decodeEntries f kvs
  | j => .error (.invalidType j.typeName)

/-- Modelled from the spec: the Rule (Condition) type lives in the
missing module src/src/version/rule.rs and is described by the spec as
an action (Allow or Deny) paired with optional platform criteria and
optional feature criteria. -/
inductive RuleAction where
  | allow : RuleAction
  | deny : RuleAction
deriving DecidableEq, Repr

/-- Modelled from the spec: platform criteria of a Condition may test
the OS family name, the architecture, and the OS version, each
optional. -/
structure OsCriteria where
  name : Option String
  arch : Option String
  version : Option String
deriving DecidableEq, Repr

/-- Modelled from the spec: a Condition is an action plus optional
platform criteria and an optional mapping from feature name to the
required boolean state. -/
structure Rule where
  action : RuleAction
  os : Option OsCriteria
  features : Option (List (String × Bool))
deriving DecidableEq, Repr

/-- Modelled from the spec: the action field decodes the strings allow
and deny; any other string is an invalid enum value. -/
def decodeRuleAction : Json → Except DeErr RuleAction
  | .str "allow" => .ok .allow
  | .str "deny" => .ok .deny
  | .str s => .error (.invalidEnumValue s)
  | j => .error (.invalidType j.typeName)

/-- Modelled from the spec: platform criteria decode as a strict object
with the optional keys name, arch and version, per the uniform
strictness rule of the spec. -/
def decodeOsCriteriaGo : List (String × Json) →
    Option (Option String) → Option (Option String) → Option (Option String) →
    Except DeErr OsCriteria
  | [], name?, arch?, version? => .ok ⟨name?.getD none, arch?.getD none, version?.getD none⟩
  | (k, v) :: rest, name?, arch?, version? =>
      if k = "name" then
        match name? with
        | some _ => .error (.duplicateField "name")
        | none =>
            match decodeOption decodeString v with
            | .error e => .error e
            | .ok s => decodeOsCriteriaGo rest (some s) arch? version?
      else if k = "arch" then
        match arch? with
        | some _ => .error (.duplicateField "arch")
        | none =>
            match decodeOption decodeString v with
            | .error e => .error e
            | .ok s => decodeOsCriteriaGo rest name? (some s) version?
      else if k = "version" then
        match version? with
        | some _ => .error (.duplicateField "version")
        | none =>
            match decodeOption decodeString v with
            | .error e => .error e
            | .ok s => decodeOsCriteriaGo rest name? arch? (some s)
      else .error (.unknownField k)

def decodeOsCriteria : Json → Except DeErr OsCriteria
  | .obj kvs => decodeOsCriteriaGo kvs none none none
  | j => .error (.invalidType j.typeName)

/-- Modelled from the spec: a Condition decodes as a strict object with
a required action key and optional os and features keys. -/
def decodeRuleGo : List (String × Json) →
    Option RuleAction → Option (Option OsCriteria) → Option (Option (List (String × Bool))) →
    Except DeErr Rule
  | [], action?, os?, features? =>
      match action? with
      | none => .error (.missingField "action")
      | some action => .ok ⟨action, os?.getD none, features?.getD none⟩
  | (k, v) :: rest, action?, os?, features? =>
      if k = "action" then
        match action? with
        | some _ => .error (.duplicateField "action")
        | none =>
            match decodeRuleAction v with
            | .error e => .error e
            | .ok a => decodeRuleGo rest (some a) os? features?
      else if k = "os" then
        match os? with
        | some _ => .error (.duplicateField "os")
        | none =>
            match decodeOption decodeOsCriteria v with
            | .error e => .error e
            | .ok o => decodeRuleGo rest action? (some o) features?
      else if k = "features" then
        match features? with
        | some _ => .error (.duplicateField "features")
        | none =>
            match decodeOption (decodeStrMap decodeBool) v with
            | .error e => .error e
            | .ok f => decodeRuleGo rest action? os? (some f)
      else .error (.unknownField k)

def decodeRule : Json → Except DeErr Rule
  | .obj kvs => decodeRuleGo kvs none none none
  | j => .error (.invalidType j.typeName)

/-- Deserialization of the Vec of Rule values stored under the rules
key of an Argument object. -/
def decodeRuleList : Json → Except DeErr (List Rule) :=
  decodeList decodeRule

/-- Modelled from the spec: serialization of a Condition, writing the
action string and the optional criteria (absent criteria serialize as
null, as derived serialization of Option does). -/
def encodeRuleAction : RuleAction → Json
  | .allow => .str "allow"
  | .deny => .str "deny"

def encodeOption (f : α → Json) : Option α → Json
  | none => .null
  | some a => f a

def encodeOsCriteria (o : OsCriteria) : Json :=
  .obj [("name", encodeOption .str o.name),
        ("arch", encodeOption .str o.arch),
        ("version", encodeOption .str o.version)]

def encodeRule (r : Rule) : Json :=
  .obj [("action", encodeRuleAction r.action),
        ("os", encodeOption encodeOsCriteria r.os),
        ("features", encodeOption (fun m => .obj (m.map (fun p => (p.1, .bool p.2)))) r.features)]

/-- The Argument struct of src/src/version/mod.rs: a list of rules and
a list of values. -/
structure Argument where
  rules : List Rule
  values : List String
deriving DecidableEq, Repr

/-- The ArrayOrStringHelper deserializer of src/src/version/mod.rs:
deserialize either an array of strings or a single string into always a
vector of strings, through deserialize_any with a visitor implementing
visit_str and visit_seq only (any other shape takes the default visitor
method, an invalid-type error). -/
def decodeArrayOrString : Json → Except DeErr (List String)
  | .str s => .ok [s]
  | .arr l => decodeElems decodeString l
  | j => .error (.invalidType j.typeName)

/-- The FromStr implementation for Argument in src/src/version/mod.rs:
always succeeds with empty rules and the single value s. -/
def Argument.fromStr (s : String) : Except Unit Argument :=
  .ok ⟨[], [s]⟩

/-- The visit_map loop of ArgumentVisitor in src/src/version/mod.rs:
keys rules and value are each decoded at most once (a repetition is a
duplicate-field error), any other key is an unknown-field error, and
after the loop a missing rules key, then a missing value key, is a
missing-field error. -/
def decodeArgumentGo : List (String × Json) → Option (List Rule) → Option (List String) →
    Except DeErr Argument
  | [], rules?, value? =>
      match rules?, value? with
      | some rules, some value => .ok ⟨rules, value⟩
      | none, _ => .error (.missingField "rules")
      | some _, none => .error (.missingField "value")
  | (k, v) :: rest, rules?, value? =>
      if k = "rules" then
        match rules? with
        | some _ => .error (.duplicateField "rules")
        | none =>
            match decodeRuleList v with
            | .error e => .error e
            | .ok rl => decodeArgumentGo rest (some rl) value?
      else if k = "value" then
        match value? with
        | some _ => .error (.duplicateField "value")
        | none =>
            match decodeArrayOrString v with
            | .error e => .error e
            | .ok vs => decodeArgumentGo rest rules? (some vs)
      else .error (.unknownField k)

/-- The Deserialize implementation for Argument: deserialize_any with a
visitor implementing visit_str (bare scalar: empty rules, one value)
and visit_map; every other shape takes the default visitor method, an
invalid-type error. -/
def decodeArgument : Json → Except DeErr Argument
  | .str s => .ok ⟨[], [s]⟩
  | .obj kvs => decodeArgumentGo kvs none none
  | j => .error (.invalidType j.typeName)

/-- The derived Serialize implementation for Argument: a two-key object
using the Rust field names rules and values. -/
def encodeArgument (a : Argument) : Json :=
  .obj [("rules", .arr (a.rules.map encodeRule)),
        ("values", .arr (a.values.map .str))]

/-- The Arguments struct of src/src/version/mod.rs: game and jvm
argument lists; the derive carries deny_unknown_fields. -/
structure Arguments where
  game : List Argument
  jvm : List Argument
deriving DecidableEq, Repr

def decodeArgumentsGo : List (String × Json) → Option (List Argument) → Option (List Argument) →
    Except DeErr Arguments
  | [], game?, jvm? =>
      match game?, jvm? with
      | some game, some jvm => .ok ⟨game, jvm⟩
      | none, _ => .error (.missingField "game")
      | some _, none => .error (.missingField "jvm")
  | (k, v) :: rest, game?, jvm? =>
      if k = "game" then
        match game? with
        | some _ => .error (.duplicateField "game")
        | none =>
            match decodeList decodeArgument v with
            | .error e => .error e
            | .ok l => decodeArgumentsGo rest (some l) jvm?
      else if k = "jvm" then
        match jvm? with
        | some _ => .error (.duplicateField "jvm")
        | none =>
            match decodeList decodeArgument v with
            | .error e => .error e
            | .ok l => decodeArgumentsGo rest game? (some l)
      else .error (.unknownField k)

def decodeArguments : Json → Except DeErr Arguments
  | .obj kvs => decodeArgumentsGo kvs none none
  | j => .error (.invalidType j.typeName)

/-- The derived Serialize implementation for Arguments. -/
def encodeArguments (a : Arguments) : Json :=
  .obj [("game", .arr (a.game.map encodeArgument)),
        ("jvm", .arr (a.jvm.map encodeArgument))]

/-- The AssetIndex struct: strict object with camelCase wire names id,
sha1, size, totalSize, url, all required. -/
structure AssetIndex where
  id : String
  sha1 : String
  size : Nat
  total_size : Nat
  url : String
deriving DecidableEq, Repr

def decodeAssetIndexGo : List (String × Json) →
    Option String → Option String → Option Nat → Option Nat → Option String →
    Except DeErr AssetIndex
  | [], id?, sha1?, size?, total?, url? =>
      match id?, sha1?, size?, total?, url? with
      | some id, some sha1, some size, some total, some url => .ok ⟨id, sha1, size, total, url⟩
      | none, _, _, _, _ => .error (.missingField "id")
      | some _, none, _, _, _ => .error (.missingField "sha1")
      | some _, some _, none, _, _ => .error (.missingField "size")
      | some _, some _, some _, none, _ => .error (.missingField "totalSize")
      | some _, some _, some _, some _, none => .error (.missingField "url")
  | (k, v) :: rest, id?, sha1?, size?, total?, url? =>
      if k = "id" then
        match id? with
        | some _ => .error (.duplicateField "id")
        | none =>
            match decodeString v with
            | .error e => .error e
            | .ok s => decodeAssetIndexGo rest (some s) sha1? size? total? url?
      else if k = "sha1" then
        match sha1? with
        | some _ => .error (.duplicateField "sha1")
        | none =>
            match decodeString v with
            | .error e => .error e
            | .ok s => decodeAssetIndexGo rest id? (some s) size? total? url?
      else if k = "size" then
        match size? with
        | some _ => .error (.duplicateField "size")
        | none =>
            match decodeU64 v with
            | .error e => .error e
            | .ok n => decodeAssetIndexGo rest id? sha1? (some n) total? url?
      else if k = "totalSize" then
        match total? with
        | some _ => .error (.duplicateField "totalSize")
        | none =>
            match decodeU64 v with
            | .error e => .error e
            | .ok n => decodeAssetIndexGo rest id? sha1? size? (some n) url?
      else if k = "url" then
        match url? with
        | some _ => .error (.duplicateField "url")
        | none =>
            match decodeString v with
            | .error e => .error e
            | .ok s => decodeAssetIndexGo rest id? sha1? size? total? (some s)
      else .error (.unknownField k)

def decodeAssetIndex : Json → Except DeErr AssetIndex
  | .obj kvs => decodeAssetIndexGo kvs none none none none none
  | j => .error (.invalidType j.typeName)

/-- The Download struct: strict object with required keys sha1, size,
url. -/
structure Download where
  sha1 : String
  size : Nat
  url : String
deriving DecidableEq, Repr

def decodeDownloadGo : List (String × Json) → Option String → Option Nat → Option String →
    Except DeErr Download
  | [], sha1?, size?, url? =>
      match sha1?, size?, url? with
      | some sha1, some size, some url => .ok ⟨sha1, size, url⟩
      | none, _, _ => .error (.missingField "sha1")
      | some _, none, _ => .error (.missingField "size")
      | some _, some _, none => .error (.missingField "url")
  | (k, v) :: rest, sha1?, size?, url? =>
      if k = "sha1" then
        match sha1? with
        | some _ => .error (.duplicateField "sha1")
        | none =>
            match decodeString v with
            | .error e => .error e
            | .ok s => decodeDownloadGo rest (some s) size? url?
      else if k = "size" then
        match size? with
        | some _ => .error (.duplicateField "size")
        | none =>
            match decodeU64 v with
            | .error e => .error e
            | .ok n => decodeDownloadGo rest sha1? (some n) url?
      else if k = "url" then
        match url? with
        | some _ => .error (.duplicateField "url")
        | none =>
            match decodeString v with
            | .error e => .error e
            | .ok s => decodeDownloadGo rest sha1? size? (some s)
      else .error (.unknownField k)

def decodeDownload : Json → Except DeErr Download
  | .obj kvs => decodeDownloadGo kvs none none none
  | j => .error (.invalidType j.typeName)

/-- The top-level Downloads struct of src/src/version/mod.rs: strict
object; client is required, the other four fields are Option values
with a serde default, so an absent key decodes to none. -/
structure Downloads where
  client : Download
  client_mappings : Option Download
  server : Option Download
  server_mappings : Option Download
  windows_server : Option Download
deriving DecidableEq, Repr

def decodeDownloadsGo : List (String × Json) →
    Option Download → Option (Option Download) → Option (Option Download) →
    Option (Option Download) → Option (Option Download) →
    Except DeErr Downloads
  | [], client?, cm?, server?, sm?, ws? =>
      match client? with
      | none => .error (.missingField "client")
      | some client =>
          .ok ⟨client, cm?.getD none, server?.getD none, sm?.getD none, ws?.getD none⟩
  | (k, v) :: rest, client?, cm?, server?, sm?, ws? =>
      if k = "client" then
        match client? with
        | some _ => .error (.duplicateField "client")
        | none =>
            match decodeDownload v with
            | .error e => .error e
            | .ok d => decodeDownloadsGo rest (some d) cm? server? sm? ws?
      else if k = "client_mappings" then
        match cm? with
        | some _ => .error (.duplicateField "client_mappings")
        | none =>
            match decodeOption decodeDownload v with
            | .error e => .error e
            | .ok d => decodeDownloadsGo rest client? (some d) server? sm? ws?
      else if k = "server" then
        match server? with
        | some _ => .error (.duplicateField "server")
        | none =>
            match decodeOption decodeDownload v with
            | .error e => .error e
            | .ok d => decodeDownloadsGo rest client? cm? (some d) sm? ws?
      else if k = "server_mappings" then
        match sm? with
        | some _ => .error (.duplicateField "server_mappings")
        | none =>
            match decodeOption decodeDownload v with
            | .error e => .error e
            | .ok d => decodeDownloadsGo rest client? cm? server? (some d) ws?
      else if k = "windows_server" then
        match ws? with
        | some _ => .error (.duplicateField "windows_server")
        | none =>
            match decodeOption decodeDownload v with
            | .error e => .error e
            | .ok d => decodeDownloadsGo rest client? cm? server? sm? (some d)
      else .error (.unknownField k)

def decodeDownloads : Json → Except DeErr Downloads
  | .obj kvs => decodeDownloadsGo kvs none none none none none
  | j => .error (.invalidType j.typeName)

/-- The JavaVersion struct: strict object with camelCase wire names
component and majorVersion, both required. -/
structure JavaVersion where
  component : String
  major_version : Nat
deriving DecidableEq, Repr

def decodeJavaVersionGo : List (String × Json) → Option String → Option Nat →
    Except DeErr JavaVersion
  | [], component?, major? =>
      match component?, major? with
      | some component, some major => .ok ⟨component, major⟩
      | none, _ => .error (.missingField "component")
      | some _, none => .error (.missingField "majorVersion")
  | (k, v) :: rest, component?, major? =>
      if k = "component" then
        match component? with
        | some _ => .error (.duplicateField "component")
        | none =>
            match decodeString v with
            | .error e => .error e
            | .ok s => decodeJavaVersionGo rest (some s) major?
      else if k = "majorVersion" then
        match major? with
        | some _ => .error (.duplicateField "majorVersion")
        | none =>
            match decodeU8 v with
            | .error e => .error e
            | .ok n => decodeJavaVersionGo rest component? (some n)
      else .error (.unknownField k)

def decodeJavaVersion : Json → Except DeErr JavaVersion
  | .obj kvs => decodeJavaVersionGo kvs none none
  | j => .error (.invalidType j.typeName)

/-- The Artifact struct of src/src/version/library.rs: strict object
with required keys path, sha1, size, url. -/
structure Artifact where
  path : String
  sha1 : String
  size : Nat
  url : String
deriving DecidableEq, Repr

def decodeArtifactGo : List (String × Json) →
    Option String → Option String → Option Nat → Option String →
    Except DeErr Artifact
  | [], path?, sha1?, size?, url? =>
      match path?, sha1?, size?, url? with
      | some path, some sha1, some size, some url => .ok ⟨path, sha1, size, url⟩
      | none, _, _, _ => .error (.missingField "path")
      | some _, none, _, _ => .error (.missingField "sha1")
      | some _, some _, none, _ => .error (.missingField "size")
      | some _, some _, some _, none => .error (.missingField "url")
  | (k, v) :: rest, path?, sha1?, size?, url? =>
      if k = "path" then
        match path? with
        | some _ => .error (.duplicateField "path")
        | none =>
            match decodeString v with
            | .error e => .error e
            | .ok s => decodeArtifactGo rest (some s) sha1? size? url?
      else if k = "sha1" then
        match sha1? with
        | some _ => .error (.duplicateField "sha1")
        | none =>
            match decodeString v with
            | .error e => .error e
            | .ok s => decodeArtifactGo rest path? (some s) size? url?
      else if k = "size" then
        match size? with
        | some _ => .error (.duplicateField "size")
        | none =>
            match decodeU64 v with
            | .error e => .error e
            | .ok n => decodeArtifactGo rest path? sha1? (some n) url?
      else if k = "url" then
        match url? with
        | some _ => .error (.duplicateField "url")
        | none =>
            match decodeString v with
            | .error e => .error e
            | .ok s => decodeArtifactGo rest path? sha1? size? (some s)
      else .error (.unknownField k)

def decodeArtifact : Json → Except DeErr Artifact
  | .obj kvs => decodeArtifactGo kvs none none none none
  | j => .error (.invalidType j.typeName)

/-- The Downloads struct of src/src/version/library.rs (named
LibDownloads here to avoid the clash with the top-level Downloads):
strict object with optional artifact and classifiers keys. -/
structure LibDownloads where
  artifact : Option Artifact
  classifiers : Option (List (String × Artifact))
deriving DecidableEq, Repr

def decodeLibDownloadsGo : List (String × Json) →
    Option (Option Artifact) → Option (Option (List (String × Artifact))) →
    Except DeErr LibDownloads
  | [], artifact?, classifiers? => .ok ⟨artifact?.getD none, classifiers?.getD none⟩
  | (k, v) :: rest, artifact?, classifiers? =>
      if k = "artifact" then
        match artifact? with
        | some _ => .error (.duplicateField "artifact")
        | none =>
            match decodeOption decodeArtifact v with
            | .error e => .error e
            | .ok a => decodeLibDownloadsGo rest (some a) classifiers?
      else if k = "classifiers" then
        match classifiers? with
        | some _ => .error (.duplicateField "classifiers")
        | none =>
            match decodeOption (decodeStrMap decodeArtifact) v with
            | .error e => .error e
            | .ok c => decodeLibDownloadsGo rest artifact? (some c)
      else .error (.unknownField k)

def decodeLibDownloads : Json → Except DeErr LibDownloads
  | .obj kvs => decodeLibDownloadsGo kvs none none
  | j => .error (.invalidType j.typeName)

/-- The Natives struct of src/src/version/library.rs: three optional
platform keys linux, osx, windows. This derive does NOT carry
deny_unknown_fields, so an unrecognized key and its value are skipped
silently instead of raising an error. -/
structure Natives where
  linux : Option String
  osx : Option String
  windows : Option String
deriving DecidableEq, Repr

def decodeNativesGo : List (String × Json) →
    Option (Option String) → Option (Option String) → Option (Option String) →
    Except DeErr Natives
  | [], linux?, osx?, windows? => .ok ⟨linux?.getD none, osx?.getD none, windows?.getD none⟩
  | (k, v) :: rest, linux?, osx?, windows? =>
      if k = "linux" then
        match linux? with
        | some _ => .error (.duplicateField "linux")
        | none =>
            match decodeOption decodeString v with
            | .error e => .error e
            | .ok s => decodeNativesGo rest (some s) osx? windows?
      else if k = "osx" then
        match osx? with
        | some _ => .error (.duplicateField "osx")
        | none =>
            match decodeOption decodeString v with
            | .error e => .error e
            | .ok s => decodeNativesGo rest linux? (some s) windows?
      else if k = "windows" then
        match windows? with
        | some _ => .error (.duplicateField "windows")
        | none =>
            match decodeOption decodeString v with
            | .error e => .error e
            | .ok s => decodeNativesGo rest linux? osx? (some s)
      else decodeNativesGo rest linux? osx? windows?

def decodeNatives : Json → Except DeErr Natives
  | .obj kvs => decodeNativesGo kvs none none none
  | j => .error (.invalidType j.typeName)

/-- The Extract type alias of src/src/version/library.rs: a BTreeMap
from string keys to lists of path-pattern strings. -/
def Extract := List (String × List String)
deriving DecidableEq, Repr

def decodeExtract : Json → Except DeErr Extract :=
  decodeStrMap (decodeList decodeString)

/-- The Library struct of src/src/version/library.rs: strict object;
name is required, the other fields are optional. -/
structure Library where
  downloads : Option LibDownloads
  name : String
  extract : Option Extract
  natives : Option Natives
  rules : Option (List Rule)
deriving DecidableEq, Repr

def decodeLibraryGo : List (String × Json) →
    Option (Option LibDownloads) → Option String → Option (Option Extract) →
    Option (Option Natives) → Option (Option (List Rule)) →
    Except DeErr Library
  | [], downloads?, name?, extract?, natives?, rules? =>
      match name? with
      | none => .error (.missingField "name")
      | some name =>
          .ok ⟨downloads?.getD none, name, extract?.getD none, natives?.getD none,
               rules?.getD none⟩
  | (k, v) :: rest, downloads?, name?, extract?, natives?, rules? =>
      if k = "downloads" then
        match downloads? with
        | some _ => .error (.duplicateField "downloads")
        | none =>
            match decodeOption decodeLibDownloads v with
            | .error e => .error e
            | .ok d => decodeLibraryGo rest (some d) name? extract? natives? rules?
      else if k = "name" then
        match name? with
        | some _ => .error (.duplicateField "name")
        | none =>
            match decodeString v with
            | .error e => .error e
            | .ok s => decodeLibraryGo rest downloads? (some s) extract? natives? rules?
      else if k = "extract" then
        match extract? with
        | some _ => .error (.duplicateField "extract")
        | none =>
            match decodeOption decodeExtract v with
            | .error e => .error e
            | .ok x => decodeLibraryGo rest downloads? name? (some x) natives? rules?
      else if k = "natives" then
        match natives? with
        | some _ => .error (.duplicateField "natives")
        | none =>
            match decodeOption decodeNatives v with
            | .error e => .error e
            | .ok n => decodeLibraryGo rest downloads? name? extract? (some n) rules?
      else if k = "rules" then
        match rules? with
        | some _ => .error (.duplicateField "rules")
        | none =>
            match decodeOption decodeRuleList v with
            | .error e => .error e
            | .ok r => decodeLibraryGo rest downloads? name? extract? natives? (some r)
      else .error (.unknownField k)

def decodeLibrary : Json → Except DeErr Library
  | .obj kvs => decodeLibraryGo kvs none none none none none
  | j => .error (.invalidType j.typeName)

/-- Modelled from the spec: the Logging type lives in the missing
module src/src/version/logging.rs; the spec says only that a manifest
carries an optional Logging descriptor, so it is modelled as a wrapper
around the raw decoded value with an always-succeeding decoder. No
claim under verification depends on its internals. -/
structure Logging where
  raw : Json

def decodeLogging (j : Json) : Except DeErr Logging :=
  .ok ⟨j⟩

/-- Modelled from the spec: the VersionKind enum lives outside the
available source files; the spec describes a release classification
with the values release, snapshot, old-beta and old-alpha, any other
value being an invalid enum value. -/
inductive VersionKind where
  | release : VersionKind
  | snapshot : VersionKind
  | oldBeta : VersionKind
  | oldAlpha : VersionKind
deriving DecidableEq, Repr

/-- Modelled from the spec: wire-format decoding of the release
classification stored under the top-level type key. -/
def decodeVersionKind : Json → Except DeErr VersionKind
  | .str "release" => .ok .release
  | .str "snapshot" => .ok .snapshot
  | .str "old_beta" => .ok .oldBeta
  | .str "old_alpha" => .ok .oldAlpha
  | .str s => .error (.invalidEnumValue s)
  | j => .error (.invalidType j.typeName)

/-- The Version struct of src/src/version/mod.rs: strict camelCase
object; the wire key of the kind field is type. -/
structure Version where
  arguments : Option Arguments
  minecraft_arguments : Option String
  asset_index : AssetIndex
  assets : String
  compliance_level : Option Nat
  downloads : Downloads
  id : String
  java_version : Option JavaVersion
  libraries : List Library
  logging : Option Logging
  main_class : String
  minimum_launcher_version : Nat
  release_time : String
  time : String
  kind : VersionKind

/-- Accumulator of the Version field loop, one optional slot per
field. -/
structure VersionAcc where
  arguments : Option (Option Arguments) := none
  minecraftArguments : Option (Option String) := none
  assetIndex : Option AssetIndex := none
  assets : Option String := none
  complianceLevel : Option (Option Nat) := none
  downloads : Option Downloads := none
  id : Option String := none
  javaVersion : Option (Option JavaVersion) := none
  libraries : Option (List Library) := none
  logging : Option (Option Logging) := none
  mainClass : Option String := none
  minimumLauncherVersion : Option Nat := none
  releaseTime : Option String := none
  time : Option String := none
  kind : Option VersionKind := none

/-- Required-field checks of Version in declaration order, using the
wire names in the missing-field errors. -/
def finishVersion (acc : VersionAcc) : Except DeErr Version :=
  match acc.assetIndex with
  | none => .error (.missingField "assetIndex")
  | some assetIndex =>
      match acc.assets with
      | none => .error (.missingField "assets")
      | some assets =>
          match acc.downloads with
          | none => .error (.missingField "downloads")
          | some downloads =>
              match acc.id with
              | none => .error (.missingField "id")
              | some id =>
                  match acc.libraries with
                  | none => .error (.missingField "libraries")
                  | some libraries =>
                      match acc.mainClass with
                      | none => .error (.missingField "mainClass")
                      | some mainClass =>
                          match acc.minimumLauncherVersion with
                          | none => .error (.missingField "minimumLauncherVersion")
                          | some mlv =>
                              match acc.releaseTime with
                              | none => .error (.missingField "releaseTime")
                              | some releaseTime =>
                                  match acc.time with
                                  | none => .error (.missingField "time")
                                  | some time =>
                                      match acc.kind with
                                      | none => .error (.missingField "type")
                                      | some kind =>
                                          .ok ⟨acc.arguments.getD none,
                                               acc.minecraftArguments.getD none,
                                               assetIndex, assets,
                                               acc.complianceLevel.getD none,
                                               downloads, id,
                                               acc.javaVersion.getD none,
                                               libraries,
                                               acc.logging.getD none,
                                               mainClass, mlv, releaseTime, time, kind⟩

def decodeVersionGo : List (String × Json) → VersionAcc → Except DeErr Version
  | [], acc => finishVersion acc
  | (k, v) :: rest, acc =>
      if k = "arguments" then
        match acc.arguments with
        | some _ => .error (.duplicateField "arguments")
        | none =>
            match decodeOption decodeArguments v with
            | .error e => .error e
            | .ok a => decodeVersionGo rest { acc with arguments := some a }
      else if k = "minecraftArguments" then
        match acc.minecraftArguments with
        | some _ => .error (.duplicateField "minecraftArguments")
        | none =>
            match decodeOption decodeString v with
            | .error e => .error e
            | .ok a => decodeVersionGo rest { acc with minecraftArguments := some a }
      else if k = "assetIndex" then
        match acc.assetIndex with
        | some _ => .error (.duplicateField "assetIndex")
        | none =>
            match decodeAssetIndex v with
            | .error e => .error e
            | .ok a => decodeVersionGo rest { acc with assetIndex := some a }
      else if k = "assets" then
        match acc.assets with
        | some _ => .error (.duplicateField "assets")
        | none =>
            match decodeString v with
            | .error e => .error e
            | .ok a => decodeVersionGo rest { acc with assets := some a }
      else if k = "complianceLevel" then
        match acc.complianceLevel with
        | some _ => .error (.duplicateField "complianceLevel")
        | none =>
            match decodeOption decodeU8 v with
            | .error e => .error e
            | .ok a => decodeVersionGo rest { acc with complianceLevel := some a }
      else if k = "downloads" then
        match acc.downloads with
        | some _ => .error (.duplicateField "downloads")
        | none =>
            match decodeDownloads v with
            | .error e => .error e
            | .ok a => decodeVersionGo rest { acc with downloads := some a }
      else if k = "id" then
        match acc.id with
        | some _ => .error (.duplicateField "id")
        | none =>
            match decodeString v with
            | .error e => .error e
            | .ok a => decodeVersionGo rest { acc with id := some a }
      else if k = "javaVersion" then
        match acc.javaVersion with
        | some _ => .error (.duplicateField "javaVersion")
        | none =>
            match decodeOption decodeJavaVersion v with
            | .error e => .error e
            | .ok a => decodeVersionGo rest { acc with javaVersion := some a }
      else if k = "libraries" then
        match acc.libraries with
        | some _ => .error (.duplicateField "libraries")
        | none =>
            match decodeList decodeLibrary v with
            | .error e => .error e
            | .ok a => decodeVersionGo rest { acc with libraries := some a }
      else if k = "logging" then
        match acc.logging with
        | some _ => .error (.duplicateField "logging")
        | none =>
            match decodeOption decodeLogging v with
            | .error e => .error e
            | .ok a => decodeVersionGo rest { acc with logging := some a }
      else if k = "mainClass" then
        match acc.mainClass with
        | some _ => .error (.duplicateField "mainClass")
        | none =>
            match decodeString v with
            | .error e => .error e
            | .ok a => decodeVersionGo rest { acc with mainClass := some a }
      else if k = "minimumLauncherVersion" then
        match acc.minimumLauncherVersion with
        | some _ => .error (.duplicateField "minimumLauncherVersion")
        | none =>
            match decodeU8 v with
            | .error e => .error e
            | .ok a => decodeVersionGo rest { acc with minimumLauncherVersion := some a }
      else if k = "releaseTime" then
        match acc.releaseTime with
        | some _ => .error (.duplicateField "releaseTime")
        | none =>
            match decodeString v with
            | .error e => .error e
            | .ok a => decodeVersionGo rest { acc with releaseTime := some a }
      else if k = "time" then
        match acc.time with
        | some _ => .error (.duplicateField "time")
        | none =>
            match decodeString v with
            | .error e => .error e
            | .ok a => decodeVersionGo rest { acc with time := some a }
      else if k = "type" then
        match acc.kind with
        | some _ => .error (.duplicateField "type")
        | none =>
            match decodeVersionKind v with
            | .error e => .error e
            | .ok a => decodeVersionGo rest { acc with kind := some a }
      else .error (.unknownField k)

def decodeVersion : Json → Except DeErr Version
  | .obj kvs => decodeVersionGo kvs {}
  | j => .error (.invalidType j.typeName)

/-- The fifteen wire-format keys the Version decoder recognizes. -/
def versionKeys : List String :=
  ["arguments", "minecraftArguments", "assetIndex", "assets", "complianceLevel",
   "downloads", "id", "javaVersion", "libraries", "logging", "mainClass",
   "minimumLauncherVersion", "releaseTime", "time", "type"]

theorem decodeString_err (j : Json) (h : j.isStr = false) :
    decodeString j = .error (.invalidType j.typeName) := by
  cases j <;> simp_all [Json.isStr, decodeString]

theorem decodeElems_ok_length (f : Json → Except DeErr α) :
    ∀ (l : List Json) (res : List α), decodeElems f l = .ok res → res.length = l.length := by
  intro l
  induction l with
  | nil =>
      intro res h
      simp only [decodeElems, Except.ok.injEq] at h
      simp [← h]
  | cons j rest ih =>
      intro res h
      simp only [decodeElems] at h
      cases hf : f j with
      | error e => simp [hf] at h
      | ok a =>
          simp only [hf] at h
          cases hr : decodeElems f rest with
          | error e => simp [hr] at h
          | ok tail =>
              simp only [hr, Except.ok.injEq] at h
              simp [← h, ih tail hr]

theorem decodeElems_map_str : ∀ v : List String,
    decodeElems decodeString (v.map Json.str) = .ok v := by
  intro v
  induction v with
  | nil => rfl
  | cons s rest ih => simp [decodeElems, decodeString, ih]

theorem decodeElems_err_of_nonstr :
    ∀ l : List Json, (∃ j ∈ l, j.isStr = false) →
      ∃ e, decodeElems decodeString l = .error e := by
  intro l
  induction l with
  | nil => rintro ⟨j, hj, _⟩; simp at hj
  | cons hd rest ih =>
      rintro ⟨j, hj, hstr⟩
      rcases List.mem_cons.mp hj with rfl | hmem
      · exact ⟨.invalidType j.typeName, by simp [decodeElems, decodeString_err j hstr]⟩
      · cases hf : decodeString hd with
        | error e => exact ⟨e, by simp [decodeElems, hf]⟩
        | ok a =>
            obtain ⟨e, he⟩ := ih ⟨j, hmem, hstr⟩
            exact ⟨e, by simp [decodeElems, hf, he]⟩

theorem decodeArgumentGo_ok_keys :
    ∀ (kvs : List (String × Json)) (r? : Option (List Rule)) (v? : Option (List String))
      (a : Argument), decodeArgumentGo kvs r? v? = .ok a →
      List.Perm (kvs.map Prod.fst)
        ((if r?.isSome then [] else ["rules"]) ++ (if v?.isSome then [] else ["value"])) := by
  intro kvs
  induction kvs with
  | nil =>
      intro r? v? a h
      cases r? <;> cases v? <;> simp_all [decodeArgumentGo]
  | cons p rest ih =>
      obtain ⟨k, v⟩ := p
      intro r? v? a h
      simp only [decodeArgumentGo] at h
      by_cases hk : k = "rules"
      · subst hk
        rw [if_pos rfl] at h
        cases r? with
        | some _ => simp at h
        | none =>
            cases hrl : decodeRuleList v with
            | error e => simp [hrl] at h
            | ok rl =>
                simp only [hrl] at h
                have hperm := ih (some rl) v? a h
                simp only [Option.isSome_some, if_true, List.nil_append] at hperm
                simp only [List.map_cons, Option.isSome_none, Bool.false_eq_true, if_false,
                  List.cons_append, List.nil_append]
                exact hperm.cons "rules"
      · rw [if_neg hk] at h
        by_cases hk2 : k = "value"
        · subst hk2
          rw [if_pos rfl] at h
          cases v? with
          | some _ => simp at h
          | none =>
              cases hvs : decodeArrayOrString v with
              | error e => simp [hvs] at h
              | ok vs =>
                  simp only [hvs] at h
                  have hperm := ih r? (some vs) a h
                  simp only [Option.isSome_some, if_true, List.append_nil] at hperm
                  simp only [List.map_cons, Option.isSome_none, Bool.false_eq_true, if_false]
                  exact (hperm.cons "value").trans (List.perm_append_singleton "value" _).symm
        · rw [if_neg hk2] at h
          simp at h

theorem decodeDownloadsGo_ok_client_mem :
    ∀ (kvs : List (String × Json)) (cm? s? sm? ws? : Option (Option Download)) (d : Downloads),
      decodeDownloadsGo kvs none cm? s? sm? ws? = .ok d →
      "client" ∈ kvs.map Prod.fst := by
  intro kvs
  induction kvs with
  | nil => intro cm? s? sm? ws? d h; simp [decodeDownloadsGo] at h
  | cons p rest ih =>
      obtain ⟨k, v⟩ := p
      intro cm? s? sm? ws? d h
      simp only [decodeDownloadsGo] at h
      by_cases hk : k = "client"
      · simp [hk]
      · rw [if_neg hk] at h
        simp only [List.map_cons, List.mem_cons]
        by_cases h2 : k = "client_mappings"
        · rw [if_pos h2] at h
          cases cm? with
          | some _ => simp at h
          | none =>
              cases hv : decodeOption decodeDownload v with
              | error e => simp [hv] at h
              | ok o => exact Or.inr (ih _ _ _ _ d (by simpa [hv] using h))
        · rw [if_neg h2] at h
          by_cases h3 : k = "server"
          · rw [if_pos h3] at h
            cases s? with
            | some _ => simp at h
            | none =>
                cases hv : decodeOption decodeDownload v with
                | error e => simp [hv] at h
                | ok o => exact Or.inr (ih _ _ _ _ d (by simpa [hv] using h))
          · rw [if_neg h3] at h
            by_cases h4 : k = "server_mappings"
            · rw [if_pos h4] at h
              cases sm? with
              | some _ => simp at h
              | none =>
                  cases hv : decodeOption decodeDownload v with
                  | error e => simp [hv] at h
                  | ok o => exact Or.inr (ih _ _ _ _ d (by simpa [hv] using h))
            · rw [if_neg h4] at h
              by_cases h5 : k = "windows_server"
              · rw [if_pos h5] at h
                cases ws? with
                | some _ => simp at h
                | none =>
                    cases hv : decodeOption decodeDownload v with
                    | error e => simp [hv] at h
                    | ok o => exact Or.inr (ih _ _ _ _ d (by simpa [hv] using h))
              · rw [if_neg h5] at h
                simp at h

theorem decodeAssetIndex_unknown (k : String) (v : Json) (rest : List (String × Json))
    (h : k ∉ ["id", "sha1", "size", "totalSize", "url"]) :
    decodeAssetIndex (.obj ((k, v) :: rest)) = .error (.unknownField k) := by
  simp only [List.mem_cons, List.not_mem_nil, or_false, not_or] at h
  obtain ⟨h1, h2, h3, h4, h5⟩ := h
  simp [decodeAssetIndex, decodeAssetIndexGo, h1, h2, h3, h4, h5]

theorem decodeDownload_unknown (k : String) (v : Json) (rest : List (String × Json))
    (h : k ∉ ["sha1", "size", "url"]) :
    decodeDownload (.obj ((k, v) :: rest)) = .error (.unknownField k) := by
  simp only [List.mem_cons, List.not_mem_nil, or_false, not_or] at h
  obtain ⟨h1, h2, h3⟩ := h
  simp [decodeDownload, decodeDownloadGo, h1, h2, h3]

theorem decodeDownloads_unknown (k : String) (v : Json) (rest : List (String × Json))
    (h : k ∉ ["client", "client_mappings", "server", "server_mappings", "windows_server"]) :
    decodeDownloads (.obj ((k, v) :: rest)) = .error (.unknownField k) := by
  simp only [List.mem_cons, List.not_mem_nil, or_false, not_or] at h
  obtain ⟨h1, h2, h3, h4, h5⟩ := h
  simp [decodeDownloads, decodeDownloadsGo, h1, h2, h3, h4, h5]

theorem decodeJavaVersion_unknown (k : String) (v : Json) (rest : List (String × Json))
    (h : k ∉ ["component", "majorVersion"]) :
    decodeJavaVersion (.obj ((k, v) :: rest)) = .error (.unknownField k) := by
  simp only [List.mem_cons, List.not_mem_nil, or_false, not_or] at h
  obtain ⟨h1, h2⟩ := h
  simp [decodeJavaVersion, decodeJavaVersionGo, h1, h2]

theorem decodeArtifact_unknown (k : String) (v : Json) (rest : List (String × Json))
    (h : k ∉ ["path", "sha1", "size", "url"]) :
    decodeArtifact (.obj ((k, v) :: rest)) = .error (.unknownField k) := by
  simp only [List.mem_cons, List.not_mem_nil, or_false, not_or] at h
  obtain ⟨h1, h2, h3, h4⟩ := h
  simp [decodeArtifact, decodeArtifactGo, h1, h2, h3, h4]

theorem decodeLibDownloads_unknown (k : String) (v : Json) (rest : List (String × Json))
    (h : k ∉ ["artifact", "classifiers"]) :
    decodeLibDownloads (.obj ((k, v) :: rest)) = .error (.unknownField k) := by
  simp only [List.mem_cons, List.not_mem_nil, or_false, not_or] at h
  obtain ⟨h1, h2⟩ := h
  simp [decodeLibDownloads, decodeLibDownloadsGo, h1, h2]

theorem decodeLibrary_unknown (k : String) (v : Json) (rest : List (String × Json))
    (h : k ∉ ["downloads", "name", "extract", "natives", "rules"]) :
    decodeLibrary (.obj ((k, v) :: rest)) = .error (.unknownField k) := by
  simp only [List.mem_cons, List.not_mem_nil, or_false, not_or] at h
  obtain ⟨h1, h2, h3, h4, h5⟩ := h
  simp [decodeLibrary, decodeLibraryGo, h1, h2, h3, h4, h5]

theorem decodeVersion_unknown (k : String) (v : Json) (rest : List (String × Json))
    (h : k ∉ versionKeys) :
    decodeVersion (.obj ((k, v) :: rest)) = .error (.unknownField k) := by
  simp only [versionKeys, List.mem_cons, List.not_mem_nil, or_false, not_or] at h
  obtain ⟨h1, h2, h3, h4, h5, h6, h7, h8, h9, h10, h11, h12, h13, h14, h15⟩ := h
  simp [decodeVersion, decodeVersionGo, h1, h2, h3, h4, h5, h6, h7, h8, h9, h10, h11,
    h12, h13, h14, h15]

theorem decodeNatives_skips_unknown (k : String) (v : Json)
    (h : k ∉ ["linux", "osx", "windows"]) :
    decodeNatives (.obj [(k, v)]) = .ok ⟨none, none, none⟩ := by
  simp only [List.mem_cons, List.not_mem_nil, or_false, not_or] at h
  obtain ⟨h1, h2, h3⟩ := h
  simp [decodeNatives, decodeNativesGo, h1, h2, h3]

/-- Claim C1 (code bug evaluation): round-trip through the wire format
fails for every Argument, because the derived serializer writes the
Rust field name values while the hand-written deserializer accepts only
the wire key value; decoding the serialization of the Argument with
empty rules and the single value the-string-username fails with an
unknown-field error on the key values, both for the Argument alone and
for an Arguments value containing it. -/
theorem argument_roundtrip_fails_on_values_key :
    decodeArgument (encodeArgument ⟨[], ["--username"]⟩) = .error (.unknownField "values") ∧
    decodeArguments (encodeArguments ⟨[⟨[], ["--username"]⟩], []⟩) =
      .error (.unknownField "values") :=
  ⟨rfl, rfl⟩

/-- Claim C2 (counterexample): Argument deserialization succeeds on an
object whose value key holds the empty sequence, producing an Argument
whose values list is empty, contradicting the claim that the values
sequence is non-empty on every successful decode. -/
theorem argument_decode_accepts_empty_values :
    decodeArgument (.obj [("rules", .arr []), ("value", .arr [])]) = .ok ⟨[], []⟩ :=
  rfl

/-- Claim C2 (amended): on success the normalizer returns an empty
sequence exactly when the raw input was the empty sequence; a bare
scalar always yields one value, and a sequence is returned with its
length unchanged, so the only successful decode with an empty values
list comes from an empty raw sequence. -/
theorem normalizer_ok_empty_iff_empty_seq (j : Json) (vs : List String)
    (h : decodeArrayOrString j = .ok vs) : vs = [] ↔ j = .arr [] := by
  cases j with
  | str s =>
      simp only [decodeArrayOrString, Except.ok.injEq] at h
      subst h
      simp
  | arr l =>
      simp only [decodeArrayOrString] at h
      have hl := decodeElems_ok_length decodeString l vs h
      simp only [Json.arr.injEq]
      constructor
      · intro hv
        subst hv
        simp only [List.length_nil] at hl
        exact List.length_eq_zero.mp hl.symm
      · intro hl2
        subst hl2
        simp only [decodeElems, Except.ok.injEq] at h
        exact h.symm
  | num n => simp [decodeArrayOrString] at h
  | bool b => simp [decodeArrayOrString] at h
  | null => simp [decodeArrayOrString] at h
  | obj kvs => simp [decodeArrayOrString] at h

/-- Witness for the amended claim C2, at the bare scalar input a. -/
theorem normalizer_ok_empty_iff_empty_seq_witness :
    (["a"] = ([] : List String)) ↔ (Json.str "a" = Json.arr []) :=
  normalizer_ok_empty_iff_empty_seq (.str "a") ["a"] rfl

/-- Claim C3 (counterexample): the Natives decoder accepts an object
carrying only the unrecognized platform key solaris and succeeds with
all three platform fields absent, so unknown keys in Natives do not
cause a decode failure. -/
theorem natives_accepts_unknown_platform_key :
    decodeNatives (.obj [("solaris", .str "natives-solaris")]) = .ok ⟨none, none, none⟩ :=
  rfl

/-- Claim C3 (amended): strict unknown-key rejection holds for Version,
AssetIndex, Download, the top-level Downloads, JavaVersion, Library,
the library Downloads object and Artifact (an object starting with an
unrecognized key fails with an unknown-field error naming it), but not
for Natives, whose decoder silently skips any unrecognized key. -/
theorem strict_unknown_keys_except_natives :
    (∀ k v rest, k ∉ versionKeys →
      decodeVersion (.obj ((k, v) :: rest)) = .error (.unknownField k)) ∧
    (∀ k v rest, k ∉ (["id", "sha1", "size", "totalSize", "url"] : List String) →
      decodeAssetIndex (.obj ((k, v) :: rest)) = .error (.unknownField k)) ∧
    (∀ k v rest, k ∉ (["sha1", "size", "url"] : List String) →
      decodeDownload (.obj ((k, v) :: rest)) = .error (.unknownField k)) ∧
    (∀ k v rest,
      k ∉ (["client", "client_mappings", "server", "server_mappings", "windows_server"] :
        List String) →
      decodeDownloads (.obj ((k, v) :: rest)) = .error (.unknownField k)) ∧
    (∀ k v rest, k ∉ (["component", "majorVersion"] : List String) →
      decodeJavaVersion (.obj ((k, v) :: rest)) = .error (.unknownField k)) ∧
    (∀ k v rest, k ∉ (["downloads", "name", "extract", "natives", "rules"] : List String) →
      decodeLibrary (.obj ((k, v) :: rest)) = .error (.unknownField k)) ∧
    (∀ k v rest, k ∉ (["artifact", "classifiers"] : List String) →
      decodeLibDownloads (.obj ((k, v) :: rest)) = .error (.unknownField k)) ∧
    (∀ k v rest, k ∉ (["path", "sha1", "size", "url"] : List String) →
      decodeArtifact (.obj ((k, v) :: rest)) = .error (.unknownField k)) ∧
    (∀ k v, k ∉ (["linux", "osx", "windows"] : List String) →
      decodeNatives (.obj [(k, v)]) = .ok ⟨none, none, none⟩) :=
  ⟨decodeVersion_unknown, decodeAssetIndex_unknown, decodeDownload_unknown,
   decodeDownloads_unknown, decodeJavaVersion_unknown, decodeLibrary_unknown,
   decodeLibDownloads_unknown, decodeArtifact_unknown, decodeNatives_skips_unknown⟩

/-- Witness for the amended claim C3, at a concrete unrecognized
top-level key of Version. -/
theorem strict_unknown_keys_except_natives_witness :
    decodeVersion (.obj [("zzz", .null)]) = .error (.unknownField "zzz") :=
  strict_unknown_keys_except_natives.1 "zzz" .null [] (by decide)

/-- Claim C4: in the object form of an Argument both keys are mandatory
and no others are allowed: an unrecognized key fails with an
unknown-field error, a missing rules or value key fails with a
missing-field error, a repeated key fails with a duplicate-field error,
and any successful decode consumed exactly the two keys rules and
value, once each, so a partial object is never accepted. -/
theorem argument_object_form_strict :
    (∀ (k : String) (v : Json) (rest : List (String × Json)), k ≠ "rules" → k ≠ "value" →
      decodeArgument (.obj ((k, v) :: rest)) = .error (.unknownField k)) ∧
    (∀ rv vs, decodeArrayOrString rv = .ok vs →
      decodeArgument (.obj [("value", rv)]) = .error (.missingField "rules")) ∧
    (∀ rl rs, decodeRuleList rl = .ok rs →
      decodeArgument (.obj [("rules", rl)]) = .error (.missingField "value")) ∧
    (∀ rl rs rl2 rest, decodeRuleList rl = .ok rs →
      decodeArgument (.obj (("rules", rl) :: ("rules", rl2) :: rest)) =
        .error (.duplicateField "rules")) ∧
    (∀ rv vs rv2 rest, decodeArrayOrString rv = .ok vs →
      decodeArgument (.obj (("value", rv) :: ("value", rv2) :: rest)) =
        .error (.duplicateField "value")) ∧
    (∀ kvs a, decodeArgument (.obj kvs) = .ok a →
      List.Perm (kvs.map Prod.fst) ["rules", "value"]) := by
  refine ⟨?_, ?_, ?_, ?_, ?_, ?_⟩
  · intro k v rest h1 h2
    simp [decodeArgument, decodeArgumentGo, h1, h2]
  · intro rv vs h
    simp [decodeArgument, decodeArgumentGo, h]
  · intro rl rs h
    simp [decodeArgument, decodeArgumentGo, h]
  · intro rl rs rl2 rest h
    simp [decodeArgument, decodeArgumentGo, h]
  · intro rv vs rv2 rest h
    simp [decodeArgument, decodeArgumentGo, h]
  · intro kvs a h
    have hp := decodeArgumentGo_ok_keys kvs none none a (by simpa [decodeArgument] using h)
    simpa using hp

/-- Witness for claim C4, at a concrete unrecognized key. -/
theorem argument_object_form_strict_witness :
    decodeArgument (.obj [("other", .null)]) = .error (.unknownField "other") :=
  argument_object_form_strict.1 "other" .null [] (by decide) (by decide)

/-- Claim C5: decoding a bare scalar string always succeeds with an
empty rule list and exactly that one value, in particular for the
string starting with two dashes followed by the word username. -/
theorem argument_bare_scalar_decode :
    (∀ s, decodeArgument (.str s) = .ok ⟨[], [s]⟩) ∧
    decodeArgument (.str "--username") = .ok ⟨[], ["--username"]⟩ :=
  ⟨fun _ => rfl, rfl⟩

/-- Claim C6: the normalizer maps a single scalar string to the
one-element sequence holding it, and maps any sequence of strings to
itself, unchanged in order and content. -/
theorem normalizer_scalar_and_sequence :
    (∀ s, decodeArrayOrString (.str s) = .ok [s]) ∧
    (∀ v : List String, decodeArrayOrString (.arr (v.map .str)) = .ok v) :=
  ⟨fun _ => rfl, fun v => by simp [decodeArrayOrString, decodeElems_map_str]⟩

/-- Claim C7: on a raw value that is neither a string nor a sequence
the normalizer fails with a type-mismatch error naming the shape found
and produces no value. -/
theorem normalizer_rejects_other_shapes (j : Json) (h1 : j.isStr = false)
    (h2 : j.isArr = false) :
    decodeArrayOrString j = .error (.invalidType j.typeName) := by
  cases j <;> simp_all [Json.isStr, Json.isArr, decodeArrayOrString]

/-- Witness for claim C7, at a number input. -/
theorem normalizer_rejects_other_shapes_witness :
    decodeArrayOrString (.num 3) = .error (.invalidType "number") :=
  normalizer_rejects_other_shapes (.num 3) rfl rfl

/-- Claim C8: the FromStr entry point never fails, and on every string
it returns exactly the Argument the bare-scalar branch of the decoder
returns: empty rules and the single value s. -/
theorem fromStr_agrees_with_decoder (s : String) :
    Argument.fromStr s = .ok ⟨[], [s]⟩ ∧ decodeArgument (.str s) = .ok ⟨[], [s]⟩ :=
  ⟨rfl, rfl⟩

/-- Claim C9: in the top-level Downloads object only client is
required: the empty object fails with a missing-field error on client,
any successful decode has a client key, and an object holding only a
valid client decodes with every optional download equal to none. -/
theorem downloads_client_required_rest_optional :
    decodeDownloads (.obj []) = .error (.missingField "client") ∧
    (∀ kvs d, decodeDownloads (.obj kvs) = .ok d → "client" ∈ kvs.map Prod.fst) ∧
    (∀ cj c, decodeDownload cj = .ok c →
      decodeDownloads (.obj [("client", cj)]) = .ok ⟨c, none, none, none, none⟩) := by
  refine ⟨rfl, ?_, ?_⟩
  · intro kvs d h
    exact decodeDownloadsGo_ok_client_mem kvs none none none none d
      (by simpa [decodeDownloads] using h)
  · intro cj c h
    simp [decodeDownloads, decodeDownloadsGo, h]

/-- Witness for claim C9, at a concrete client download object. -/
theorem downloads_client_required_rest_optional_witness :
    decodeDownloads (.obj [("client",
        .obj [("sha1", .str "aa"), ("size", .num 1), ("url", .str "u")])]) =
      .ok ⟨⟨"aa", 1, "u"⟩, none, none, none, none⟩ :=
  downloads_client_required_rest_optional.2.2
    (.obj [("sha1", .str "aa"), ("size", .num 1), ("url", .str "u")]) ⟨"aa", 1, "u"⟩ rfl

/-- Claim C10: when the raw value of an Argument object is a sequence,
any non-string element makes the normalizer, and with it the whole
Argument decode, fail with an error; no partial Argument is returned. -/
theorem value_sequence_nonstring_fails :
    (∀ l, (∃ j ∈ l, j.isStr = false) → ∃ e, decodeArrayOrString (.arr l) = .error e) ∧
    (∀ rl rs l, decodeRuleList rl = .ok rs → (∃ j ∈ l, j.isStr = false) →
      ∃ e, decodeArgument (.obj [("rules", rl), ("value", .arr l)]) = .error e) := by
  constructor
  · intro l hl
    obtain ⟨e, he⟩ := decodeElems_err_of_nonstr l hl
    exact ⟨e, by simp [decodeArrayOrString, he]⟩
  · intro rl rs l hrl hl
    obtain ⟨e, he⟩ := decodeElems_err_of_nonstr l hl
    exact ⟨e, by simp [decodeArgument, decodeArgumentGo, hrl, decodeArrayOrString, he]⟩

/-- Witness for claim C10, at a one-element sequence holding a number. -/
theorem value_sequence_nonstring_fails_witness :
    ∃ e, decodeArgument (.obj [("rules", .arr []), ("value", .arr [.num 7])]) = .error e :=
  value_sequence_nonstring_fails.2 (.arr []) [] [.num 7] rfl ⟨.num 7, by simp, rfl⟩
